import Mathlib

/-!
Verification of the text-processing core of the `slider` repository.

The definitions below are shallow embeddings of the Python code in
`src/slider/slide_preprocessor.py` and `src/slider/slide_filter.py`.
Effects are made explicit:

* the file system is passed as a list of path names (`fs`), modelling the
  set of files that exist and can be opened (`open` raising
  `FileNotFoundError` / `os.path.isfile` returning `False` correspond to
  non-membership);
* the chain of currently open input sources (`FileInfo` objects linked by
  `prev`) is passed as the list of their names, innermost first (`chain`);
* lines written by `print` via `SlidePreprocessor._emit` are collected in
  the returned list of emitted lines;
* a Python exception that would escape (crashing the program) is an
  explicit `error` / `none` result;
* the SHA-256 digest (`hashlib.sha256(...).hexdigest()` after encoding,
  a fixed deterministic function supplied by the standard library) is a
  function parameter of the cache-key definitions.
-/

namespace Slider

/-- Python `str.startswith p`: the characters of `p` are a prefix. -/
def pyStartswith (s p : String) : Bool := p.data.isPrefixOf s.data

/-- Python `str.endswith p`: the characters of `p` are a suffix. -/
def pyEndswith (s p : String) : Bool := p.data.reverse.isPrefixOf s.data.reverse

/-- POSIX `os.path.join a b` for two components: an absolute second
component discards the first; otherwise the parts are glued with `/`
unless the first part is empty or already ends in `/`. -/
def joinPath (a b : String) : String :=
  if pyStartswith b "/" then b
  else if a = "" then b
  else if pyEndswith a "/" then a ++ b
  else a ++ "/" ++ b

/-- Python `str.split("/")` on a character list: the groups of
characters between the slashes (structural recursion, so that concrete
paths evaluate). -/
def splitOnSlash : List Char → List (List Char)
  | [] => [[]]
  | c :: rest =>
    if c = '/' then [] :: splitOnSlash rest
    else
      match splitOnSlash rest with
      | [] => [[c]]
      | g :: gs => (c :: g) :: gs

/-- `pathlib.PurePath(p).parts` for a POSIX path: the leading `/` (if any)
is itself a part, empty and `.` components are dropped. -/
def pathParts (p : String) : List String :=
  let comps := ((splitOnSlash p.data).map List.asString).filter
    (fun c => c != "" && c != ".")
  if pyStartswith p "/" then "/" :: comps else comps

/-- `os.path.join('', '..', ..., '..')` with `n` parent-directory steps,
as computed in `SlidePreprocessor.__init__` for `_reldir`. -/
def dotsPath : Nat → String
  | 0 => ""
  | 1 => ".."
  | n + 2 => dotsPath (n + 1) ++ "/.."

/-- The `_reldir` field computed in `SlidePreprocessor.__init__`:
for a non-empty base, one `..` step per `PurePath` part beyond the first,
otherwise the empty string. -/
def reldirOf (base : String) : String :=
  if base = "" then "" else dotsPath ((pathParts base).length - 1)

/-- The `Config` named tuple of `slide_preprocessor.py`.  The symbol set
is modelled as a list of (lower-cased) symbol names. -/
structure Config where
  root : String
  base : String
  includes : List String
  symbols : List String
  deriving DecidableEq, Repr

/-- `SlidePreprocessor._has_symbol`: membership of the lower-cased
symbol in the configured set. -/
def hasSymbol (cfg : Config) (symbol : String) : Bool :=
  cfg.symbols.contains symbol.toLower

/-- The conditional-emission state of a `SlidePreprocessor`:
`_do_emit` and `_if_stack` (stack top at the head of the list). -/
structure CondState where
  do_emit : Bool
  if_stack : List Bool
  deriving DecidableEq, Repr

/-- `SlidePreprocessor._emit`: the line is printed only while
`_do_emit` holds. -/
def emitLine (st : CondState) (line : String) : List String :=
  if st.do_emit then [line] else []

/-- Python `\s` on the characters that can occur in an input line. -/
def isPySpace (c : Char) : Bool :=
  c = ' ' || c = '\t' || c = '\n' || c = '\r' || c = '\x0b' || c = '\x0c'

/-- A character matched by the command pattern `[a-z#]`. -/
def isCmdChar (c : Char) : Bool :=
  ('a' ≤ c && c ≤ 'z') || c = '#'

/-- The `hash`-style line parser produced by `gen_parse_line` from the
regular expression `^\s*#([a-z#]+)(?:\s+(\S+))?$`: optional leading
whitespace, `#`, a non-empty command word, then either the end of the
line or whitespace followed by a single non-space argument. -/
def parseHashChars (l : List Char) : Option (String × Option String) :=
  match l.dropWhile isPySpace with
  | '#' :: rest =>
    let cmd := rest.takeWhile isCmdChar
    if cmd.isEmpty then none
    else
      match rest.dropWhile isCmdChar with
      | [] => some (cmd.asString, none)
      | rest2 =>
        if (rest2.takeWhile isPySpace).isEmpty then none
        else
          let rest3 := rest2.dropWhile isPySpace
          let arg := rest3.takeWhile (fun c => !isPySpace c)
          if arg.isEmpty then none
          else if (rest3.dropWhile (fun c => !isPySpace c)).isEmpty then
            some (cmd.asString, some arg.asString)
          else none
  | _ => none

/-- `LINE_PARSER['hash']` applied to one (newline-stripped) line. -/
def parseHash (line : String) : Option (String × Option String) :=
  parseHashChars line.data

/-- The list of search directories walked by
`SlidePreprocessor._candidate_names`: the directory of the current
source (absent exactly for standard input) followed by the configured
include directories. -/
def searchList (currentDir : Option String) (includes : List String) : List String :=
  match currentDir with
  | some d => d :: includes
  | none => includes

/-- `SlidePreprocessor._candidate_names`: each search directory joined
with the requested path, in search order. -/
def candidateNames (currentDir : Option String) (includes : List String)
    (filepath : String) : List String :=
  (searchList currentDir includes).map (fun d => joinPath d filepath)

/-- Outcome of `SlidePreprocessor._handle_include`: either a new source
was opened and pushed, or a diagnostic line was emitted. -/
inductive IncludeResult where
  | opened (name : String)
  | diag (msg : String)
  deriving DecidableEq, Repr

/-- The candidate loop of `SlidePreprocessor._handle_include`.
`recursive` records whether some candidate was skipped because
`FileInfo.is_already_open` found it in the chain of open sources. -/
def includeLoop (chain fs : List String) (filepath : String) :
    List String → Bool → IncludeResult
  | [], recursive =>
    if recursive then .diag ("Recursive include: " ++ filepath)
    else .diag ("File not found: " ++ filepath)
  | c :: rest, recursive =>
    if chain.contains c then includeLoop chain fs filepath rest true
    else if fs.contains c then .opened c
    else includeLoop chain fs filepath rest recursive

/-- `SlidePreprocessor._handle_include` on an explicit file system and
chain of open sources. -/
def handle_include (currentDir : Option String) (includes chain fs : List String)
    (filepath : String) : IncludeResult :=
  includeLoop chain fs filepath (candidateNames currentDir includes filepath) false

/-- Outcome of `SlidePreprocessor._handle_image`: the emitted line
(image markup or a diagnostic), or a failure of the `assert` that the
candidate starts with the configured root. -/
inductive ImageResult where
  | emit (line : String)
  | assertFail (candidate : String)
  deriving DecidableEq, Repr

/-- The URL computation of `SlidePreprocessor._handle_image` on the
root-relative candidate name, using the precomputed `_reldir`. -/
def imageUrl (cfg : Config) (name : String) : String :=
  if reldirOf cfg.base = "" then "/" ++ name
  else joinPath (reldirOf cfg.base) name

/-- The candidate loop of `SlidePreprocessor._handle_image`. -/
def imageLoop (cfg : Config) (fs : List String) (filepath : String) :
    List String → ImageResult
  | [] => .emit ("Image not found: " ++ filepath)
  | c :: rest =>
    if fs.contains c then
      if pyStartswith c cfg.root then
        .emit ("![](" ++ imageUrl cfg (c.drop (cfg.root.length + 1)) ++ ")\\ ")
      else .assertFail c
    else imageLoop cfg fs filepath rest

/-- `SlidePreprocessor._handle_image` on an explicit file system. -/
def handle_image (cfg : Config) (currentDir : Option String) (fs : List String)
    (filepath : String) : ImageResult :=
  imageLoop cfg fs filepath (candidateNames currentDir cfg.includes filepath)

/-- Result of processing one line: the new conditional state, the lines
emitted for it, and the name of a newly opened include source, if any. -/
structure StepResult where
  cond : CondState
  emitted : List String
  opened : Option String
  deriving DecidableEq, Repr

/-- Result of `SlidePreprocessor._handle_command`: `unhandled` models a
`False` return value (the command was skipped or unknown, so
`handle_line` falls back to emitting the raw line), `done` a `True`
return value together with the handler's effects, and `error` a Python
exception escaping the handler (a missing mandatory argument, or a
failing `assert`), which aborts the program. -/
inductive CmdResult where
  | unhandled
  | done (r : StepResult)
  | error
  deriving DecidableEq, Repr

/-- `SlidePreprocessor._handle_command`: dispatch over `ARG_COMMANDS`
and `NOARG_COMMANDS`; a command whose `always` flag is `False` is
skipped entirely while `_do_emit` is false.  The conditional handlers
`_handle_ifdef` / `_handle_ifndef` / `_handle_elifdef` / `_handle_else`
/ `_handle_endif` are inlined as their state transitions. -/
def handle_command (cfg : Config) (currentDir : Option String)
    (chain fs : List String) (st : CondState)
    (command : String) (argument : Option String) : CmdResult :=
  match command with
  | "#" =>
    if !st.do_emit then .unhandled else .done ⟨st, [], none⟩
  | "ifdef" =>
    match argument with
    | some symbol => .done ⟨⟨hasSymbol cfg symbol, st.do_emit :: st.if_stack⟩, [], none⟩
    | none => .error
  | "ifndef" =>
    match argument with
    | some symbol => .done ⟨⟨!hasSymbol cfg symbol, st.do_emit :: st.if_stack⟩, [], none⟩
    | none => .error
  | "elifdef" =>
    match st.if_stack with
    | [] => .done ⟨st, [], none⟩
    | _ :: _ =>
      match argument with
      | some symbol => .done ⟨⟨hasSymbol cfg symbol, st.if_stack⟩, [], none⟩
      | none => .error
  | "include" =>
    if !st.do_emit then .unhandled
    else
      match argument with
      | some filepath =>
        match handle_include currentDir cfg.includes chain fs filepath with
        | .opened name => .done ⟨st, [], some name⟩
        | .diag msg => .done ⟨st, emitLine st msg, none⟩
      | none =>
        match currentDir, cfg.includes with
        | none, [] => .done ⟨st, emitLine st "File not found: None", none⟩
        | _, _ => .error
  | "image" =>
    if !st.do_emit then .unhandled
    else
      match argument with
      | some filepath =>
        match handle_image cfg currentDir fs filepath with
        | .emit l => .done ⟨st, emitLine st l, none⟩
        | .assertFail _ => .error
      | none =>
        match currentDir, cfg.includes with
        | none, [] => .done ⟨st, emitLine st "Image not found: None", none⟩
        | _, _ => .error
  | "page" =>
    if !st.do_emit then .unhandled
    else
      .done ⟨st, emitLine st "" ++
        (if hasSymbol cfg "slides" then emitLine st "----" ++ emitLine st "" else []),
        none⟩
  | "pause" =>
    if !st.do_emit then .unhandled
    else
      .done ⟨st,
        (if hasSymbol cfg "slides" then
          emitLine st "" ++ emitLine st ". . ." ++ emitLine st "" else []),
        none⟩
  | "else" =>
    match st.if_stack with
    | [] => .done ⟨st, [], none⟩
    | _ :: _ => .done ⟨⟨!st.do_emit, st.if_stack⟩, [], none⟩
  | "endif" =>
    match st.if_stack with
    | [] => .done ⟨st, [], none⟩
    | f :: rest => .done ⟨⟨f, rest⟩, [], none⟩
  | _ => .unhandled

/-- `SlidePreprocessor.handle_line` (with the `hash` line parser):
a line that parses to no command, or whose command is not handled,
is emitted as a literal line (subject to `_do_emit`); `none` models a
Python exception escaping (which aborts the whole run). -/
def handle_line (cfg : Config) (currentDir : Option String)
    (chain fs : List String) (st : CondState) (line : String) :
    Option StepResult :=
  match parseHash line with
  | none => some ⟨st, emitLine st line, none⟩
  | some (command, argument) =>
    match handle_command cfg currentDir chain fs st command argument with
    | .done r => some r
    | .unhandled => some ⟨st, emitLine st line, none⟩
    | .error => none

/-- Processing a block of consecutive lines of the current source,
threading the conditional state and concatenating the emitted output.
(The blocks considered by the claims below never open a new source.) -/
def processLines (cfg : Config) (currentDir : Option String)
    (chain fs : List String) :
    CondState → List String → Option (CondState × List String)
  | st, [] => some (st, [])
  | st, l :: ls =>
    match handle_line cfg currentDir chain fs st l with
    | none => none
    | some r =>
      match processLines cfg currentDir chain fs r.cond ls with
      | none => none
      | some (st2, out) => some (st2, r.emitted ++ out)

/-! ## `slide_filter.py`: content-addressed cache (`FileBasedFilter`) -/

/-- `FileBasedFilter.get_filename4code`: the cache path for some
content, parameterised by the digest function (`hashlib.sha256`
composed with the file-system encoding — a fixed deterministic
function).  The `os.makedirs` side effect does not influence the
returned names and is omitted. -/
def get_filename4code (digest : String → String)
    (temp_dir filter_name content extension : String) : String × String :=
  let filter_dir := joinPath temp_dir filter_name
  let digested_name := digest content
  let filename := digested_name ++ "." ++ extension
  let fullname := joinPath filter_dir filename
  let relpath := filter_name ++ "/" ++ filename
  (fullname, relpath)

/-- `GraphvizFilter.generate_file` on an explicit file system: returns
the two cache names together with whether the external renderer was
invoked (`subprocess.Popen` runs exactly when the cache file does not
already exist). -/
def generate_file (digest : String → String) (temp_dir : String)
    (fs : List String) (graphviz_class code image_format : String) :
    (String × String) × Bool :=
  let names := get_filename4code digest temp_dir graphviz_class code image_format
  (names, !fs.contains names.1)

/-! ## `slide_filter.py`: `MetaVarFilter` -/

/-- A Pandoc inline element as far as `FilterBase.stringify_elem`
distinguishes them: a `Str` with its text, a `Space`, or any other
element (carrying the text Python's `str` would render for it). -/
inductive PElem where
  | str (s : String)
  | space
  | other (txt : String)
  deriving DecidableEq, Repr

/-- A metadata value as far as `MetaVarFilter._lookup_variable`
distinguishes them. -/
inductive MetaValue where
  | metaInlines (l : List PElem)
  | metaString (s : String)
  | otherMeta
  deriving DecidableEq, Repr

/-- `FilterBase.stringify_elem`. -/
def stringifyElem : PElem → String
  | .str s => s
  | .space => " "
  | .other txt => txt

/-- `MetaVarFilter._lookup_variable`: document metadata is modelled as
an association list from variable names to metadata values. -/
def lookupVariable (v : String) (meta : List (String × MetaValue)) : Option String :=
  match meta.lookup v with
  | some (.metaInlines l) => some (String.join (l.map stringifyElem))
  | some (.metaString s) => some s
  | _ => none

/-- Locate the first `%` immediately followed by `{`; returns its index
and the characters after the two-character opener. -/
def findPercentBrace : List Char → Option (Nat × List Char)
  | '%' :: '{' :: rest => some (0, rest)
  | _ :: rest =>
    match findPercentBrace rest with
    | some (i, after) => some (i + 1, after)
    | none => none
  | [] => none

/-- Characters up to the first closing brace, together with the number
of characters consumed including that brace; `none` when no closing
brace follows (the lazy group of `%\x7b(.*?)\x7d` then has no match). -/
def takeUntilBrace : List Char → Option (List Char × Nat)
  | [] => none
  | '}' :: _ => some ([], 1)
  | c :: rest =>
    match takeUntilBrace rest with
    | some (cs, n) => some (c :: cs, n + 1)
    | none => none

/-- The search loop of `MetaVarFilter._find_variables` for the pattern
`%\x7b(.*?)\x7d`: repeatedly find the next match from the current
position, recording `(variable name, start, end)`.  `fuel` bounds the
number of iterations; every match consumes at least three characters,
so `length + 1` units suffice. -/
def findVarsGo : Nat → List Char → Nat → List (String × Nat × Nat)
  | 0, _, _ => []
  | fuel + 1, rem, pos =>
    match findPercentBrace rem with
    | none => []
    | some (i, after) =>
      match takeUntilBrace after with
      | none => []
      | some (content, n) =>
        (content.asString, pos + i, pos + i + 2 + n) ::
          findVarsGo fuel (after.drop n) (pos + i + 2 + n)

/-- `MetaVarFilter._find_variables` with the plain-text pattern. -/
def findVariables (value : String) : List (String × Nat × Nat) :=
  findVarsGo (value.length + 1) value.data 0

/-- Python list slice assignment `result[start:stop] = repl` on a
character list. -/
def spliceAt (l : List Char) (start stop : Nat) (repl : String) : List Char :=
  l.take start ++ repl.data ++ l.drop stop

/-- `MetaVarFilter.replace_metavar` (with the plain-text pattern):
`none` when the string contains no variable occurrence; otherwise every
occurrence whose variable is defined is substituted, back to front. -/
def replace_metavar (meta : List (String × MetaValue)) (string_value : String) :
    Option String :=
  let variable_infos := findVariables string_value
  if variable_infos.isEmpty then none
  else
    let value_infos := variable_infos.map
      (fun x => (lookupVariable x.1 meta, x.2.1, x.2.2))
    let result := value_infos.reverse.foldl
      (fun acc x =>
        match x.1 with
        | some v => spliceAt acc x.2.1 x.2.2 v
        | none => acc)
      string_value.data
    some result.asString

/-- A plain-text inline node (`Str`), the only node shape
`MetaVarFilter.process_str` produces. -/
inductive Inline where
  | str (s : String)
  deriving DecidableEq, Repr

/-- `MetaVarFilter.process_str`: `none` is the pass-through signal
(the driving library keeps the original node); `some` is a replacement
node. -/
def metavar_process_str (meta : List (String × MetaValue)) (value : String) :
    Option Inline :=
  match replace_metavar meta value with
  | some v => some (.str v)
  | none => none

/-! ## `slide_filter.py`: `GermanQuotesFilter` -/

/-- `PANDOC_HTML_FORMATS` (the two plain HTML formats together with
`PANDOC_SLIDE_FORMATS`). -/
def PANDOC_HTML_FORMATS : List String :=
  ["html", "html5", "s5", "slidy", "slideous", "dzslides", "revealjs"]

/-- `GermanQuotesFilter._quote_replacement`: the directional quote for
the current toggle state, for HTML-family and latex targets; for any
other (including empty) target the replacement is the empty string. -/
def quote_replacement (is_opening_quote : Bool) (output_format : String) : String :=
  if PANDOC_HTML_FORMATS.contains output_format then
    if is_opening_quote then "„" else "“"
  else if output_format = "latex" then
    if is_opening_quote then "„" else "“"
  else ""

/-- The scanning loop of `GermanQuotesFilter.replace_quotes`: the text
is scanned left to right; each (leftmost, non-overlapping) occurrence
of the marker `´´` is replaced by the quote for the current toggle
state, which is then flipped.  Returns the transformed characters and
the final toggle state. -/
def replaceQuotesGo (output_format : String) : List Char → Bool → List Char × Bool
  | [], b => ([], b)
  | [c], b => ([c], b)
  | c1 :: c2 :: rest, b =>
    if c1 = '´' ∧ c2 = '´' then
      let p := replaceQuotesGo output_format rest (!b)
      ((quote_replacement b output_format).data ++ p.1, p.2)
    else
      let p := replaceQuotesGo output_format (c2 :: rest) b
      (c1 :: p.1, p.2)

/-- Whether the text contains the marker `´´` (the `changed` flag of
`replace_quotes`: without any marker the method returns `None`). -/
def hasMarker : List Char → Bool
  | [] => false
  | [_] => false
  | c1 :: c2 :: rest =>
    if c1 = '´' ∧ c2 = '´' then true else hasMarker (c2 :: rest)

/-- The number of (leftmost, non-overlapping) `´´` markers the scan of
`replace_quotes` processes. -/
def countMarkers : List Char → Nat
  | [] => 0
  | [_] => 0
  | c1 :: c2 :: rest =>
    if c1 = '´' ∧ c2 = '´' then countMarkers rest + 1
    else countMarkers (c2 :: rest)

/-- `GermanQuotesFilter.replace_quotes` together with the
`is_opening_quote` state it reads and writes: returns `none` (and the
unchanged state) when the text has no marker, otherwise the transformed
string and the new state. -/
def replace_quotes (output_format : String) (value : String) (is_opening_quote : Bool) :
    Option String × Bool :=
  if hasMarker value.data then
    let p := replaceQuotesGo output_format value.data is_opening_quote
    (some p.1.asString, p.2)
  else (none, is_opening_quote)

/-! ## Helper lemmas on line processing -/

theorem handle_line_literal (cfg : Config) (cd : Option String) (chain fs : List String)
    (st : CondState) (line : String) (h : parseHash line = none) :
    handle_line cfg cd chain fs st line = some ⟨st, emitLine st line, none⟩ := by
  simp [handle_line, h]

theorem processLines_literal (cfg : Config) (cd : Option String) (chain fs : List String)
    (ls : List String) (h : ∀ l ∈ ls, parseHash l = none) (st : CondState) :
    processLines cfg cd chain fs st ls = some (st, if st.do_emit then ls else []) := by
  induction ls with
  | nil => cases hde : st.do_emit <;> simp [processLines, hde]
  | cons l ls ih =>
    have hl : parseHash l = none := h l (List.mem_cons_self l ls)
    have hrest : ∀ x ∈ ls, parseHash x = none := fun x hx => h x (List.mem_cons_of_mem l hx)
    simp only [processLines, handle_line_literal cfg cd chain fs st l hl, ih hrest]
    cases hde : st.do_emit <;> simp [emitLine, hde]

theorem processLines_append (cfg : Config) (cd : Option String) (chain fs : List String)
    (xs ys : List String) (st : CondState) :
    processLines cfg cd chain fs st (xs ++ ys) =
      match processLines cfg cd chain fs st xs with
      | none => none
      | some p =>
        match processLines cfg cd chain fs p.1 ys with
        | none => none
        | some q => some (q.1, p.2 ++ q.2) := by
  induction xs generalizing st with
  | nil =>
    simp only [List.nil_append, processLines]
    cases hq : processLines cfg cd chain fs st ys with
    | none => rfl
    | some q => rfl
  | cons x xs ih =>
    simp only [List.cons_append, processLines]
    cases hx : handle_line cfg cd chain fs st x with
    | none => rfl
    | some r =>
      simp only [List.append_eq, ih r.cond]
      cases hp : processLines cfg cd chain fs r.cond xs with
      | none => rfl
      | some p =>
        obtain ⟨st1, out1⟩ := p
        cases hq : processLines cfg cd chain fs st1 ys with
        | none => simp [hq]
        | some q => simp [hq]

theorem handle_line_ifdef (cfg : Config) (cd : Option String) (chain fs : List String)
    (st : CondState) (line symbol : String)
    (h : parseHash line = some ("ifdef", some symbol)) :
    handle_line cfg cd chain fs st line =
      some ⟨⟨hasSymbol cfg symbol, st.do_emit :: st.if_stack⟩, [], none⟩ := by
  simp only [handle_line, h]
  rfl

theorem handle_line_else (cfg : Config) (cd : Option String) (chain fs : List String)
    (st : CondState) (line : String) (a : Option String) (f : Bool) (t : List Bool)
    (h : parseHash line = some ("else", a)) (hstk : st.if_stack = f :: t) :
    handle_line cfg cd chain fs st line =
      some ⟨⟨!st.do_emit, st.if_stack⟩, [], none⟩ := by
  obtain ⟨de, stk⟩ := st
  have hstk2 : stk = f :: t := hstk
  subst hstk2
  simp only [handle_line, h]
  rfl

theorem handle_line_endif (cfg : Config) (cd : Option String) (chain fs : List String)
    (st : CondState) (line : String) (a : Option String) (f : Bool) (t : List Bool)
    (h : parseHash line = some ("endif", a)) (hstk : st.if_stack = f :: t) :
    handle_line cfg cd chain fs st line = some ⟨⟨f, t⟩, [], none⟩ := by
  obtain ⟨de, stk⟩ := st
  have hstk2 : stk = f :: t := hstk
  subst hstk2
  simp only [handle_line, h]
  rfl

/-! ## Claim C1 -/

/-- C1: at any conditional nesting depth (arbitrary starting state
`st`), an `ifdef`…`else`…`endif` group whose branches consist of
literal lines emits exactly one of the two branches — the then-branch
if and only if the lower-cased symbol is a member of the configured
symbol set — and afterwards the emission flag and the conditional stack
are exactly their values from before the `ifdef`. -/
theorem c1_ifdef_else_endif (cfg : Config) (cd : Option String) (chain fs : List String)
    (st : CondState) (symbol lIf lElse lEnd : String) (aElse aEnd : Option String)
    (thenLines elseLines : List String)
    (hIf : parseHash lIf = some ("ifdef", some symbol))
    (hElse : parseHash lElse = some ("else", aElse))
    (hEnd : parseHash lEnd = some ("endif", aEnd))
    (hThen : ∀ l ∈ thenLines, parseHash l = none)
    (hElseL : ∀ l ∈ elseLines, parseHash l = none) :
    processLines cfg cd chain fs st
        ([lIf] ++ thenLines ++ [lElse] ++ elseLines ++ [lEnd]) =
      some (st, if cfg.symbols.contains symbol.toLower then thenLines else elseLines) := by
  have heq :
      [lIf] ++ thenLines ++ [lElse] ++ elseLines ++ [lEnd] =
        lIf :: (thenLines ++ (lElse :: (elseLines ++ [lEnd]))) := by simp
  rw [heq]
  simp only [processLines, handle_line_ifdef cfg cd chain fs st lIf symbol hIf]
  rw [processLines_append cfg cd chain fs thenLines (lElse :: (elseLines ++ [lEnd]))]
  rw [processLines_literal cfg cd chain fs thenLines hThen]
  simp only [processLines,
    handle_line_else cfg cd chain fs ⟨hasSymbol cfg symbol, st.do_emit :: st.if_stack⟩
      lElse aElse st.do_emit st.if_stack hElse rfl]
  rw [processLines_append cfg cd chain fs elseLines [lEnd]]
  rw [processLines_literal cfg cd chain fs elseLines hElseL]
  simp only [processLines,
    handle_line_endif cfg cd chain fs ⟨!hasSymbol cfg symbol, st.do_emit :: st.if_stack⟩
      lEnd aEnd st.do_emit st.if_stack hEnd rfl]
  have hsym : hasSymbol cfg symbol = cfg.symbols.contains symbol.toLower := rfl
  cases hs : hasSymbol cfg symbol <;> simp_all

/-- Witness for C1 at a concrete input. -/
theorem c1_witness :
    processLines ⟨"", "", [], ["x"]⟩ none [] [] ⟨true, []⟩
        (["#ifdef x"] ++ ["then1"] ++ ["#else"] ++ ["else1"] ++ ["#endif"]) =
      some (⟨true, []⟩,
        if (["x"] : List String).contains ("x".toLower) then ["then1"] else ["else1"]) :=
  c1_ifdef_else_endif ⟨"", "", [], ["x"]⟩ none [] [] ⟨true, []⟩ "x"
    "#ifdef x" "#else" "#endif" none none ["then1"] ["else1"]
    rfl rfl rfl (by decide) (by decide)

/-! ## Claim C2 -/

/-- C2: while the emission flag is false, `_handle_command` executes
the handler exactly for the five always-processed conditional
directives; for comment, page, pause, include and image it returns
without running the handler (so no include file is opened and no image
markup is produced), and handling such a line emits nothing, opens
nothing and leaves the state unchanged. -/
theorem c2_suppressed_dispatch (cfg : Config) (cd : Option String)
    (chain fs : List String) (st : CondState) (command : String)
    (argument : Option String) (h : st.do_emit = false) :
    ((command = "ifdef" ∨ command = "ifndef" ∨ command = "elifdef" ∨
        command = "else" ∨ command = "endif") →
      handle_command cfg cd chain fs st command argument ≠ .unhandled) ∧
    ((command = "#" ∨ command = "page" ∨ command = "pause" ∨
        command = "include" ∨ command = "image") →
      handle_command cfg cd chain fs st command argument = .unhandled) ∧
    (∀ line, parseHash line = some (command, argument) →
      (command = "#" ∨ command = "page" ∨ command = "pause" ∨
        command = "include" ∨ command = "image") →
      handle_line cfg cd chain fs st line = some ⟨st, [], none⟩) := by
  obtain ⟨de, stk⟩ := st
  have hde : de = false := h
  subst hde
  have hskip : ∀ c, (c = "#" ∨ c = "page" ∨ c = "pause" ∨ c = "include" ∨ c = "image") →
      handle_command cfg cd chain fs ⟨false, stk⟩ c argument = .unhandled := by
    rintro c (rfl | rfl | rfl | rfl | rfl) <;> rfl
  refine ⟨?_, hskip command, ?_⟩
  · rintro (rfl | rfl | rfl | rfl | rfl) <;> intro hc
    · cases argument <;> exact CmdResult.noConfusion hc
    · cases argument <;> exact CmdResult.noConfusion hc
    · cases stk with
      | nil => exact CmdResult.noConfusion hc
      | cons f t => cases argument <;> exact CmdResult.noConfusion hc
    · cases stk <;> exact CmdResult.noConfusion hc
    · cases stk <;> exact CmdResult.noConfusion hc
  · intro line hp hcmd
    simp only [handle_line, hp, hskip command hcmd]
    rfl

/-- Witness for C2 at a concrete input: a suppressed `include` line. -/
theorem c2_witness :
    handle_command ⟨"", "", [], []⟩ none [] ["f.md"] ⟨false, [true]⟩
        "include" (some "f.md") = .unhandled ∧
    handle_line ⟨"", "", [], []⟩ none [] ["f.md"] ⟨false, [true]⟩
        "#include f.md" = some ⟨⟨false, [true]⟩, [], none⟩ :=
  ⟨(c2_suppressed_dispatch ⟨"", "", [], []⟩ none [] ["f.md"] ⟨false, [true]⟩
      "include" (some "f.md") rfl).2.1
      (Or.inr (Or.inr (Or.inr (Or.inl rfl)))),
   (c2_suppressed_dispatch ⟨"", "", [], []⟩ none [] ["f.md"] ⟨false, [true]⟩
      "include" (some "f.md") rfl).2.2 "#include f.md" rfl
      (Or.inr (Or.inr (Or.inr (Or.inl rfl))))⟩

/-! ## Claim C9 -/

/-- C9: with an empty conditional stack, an `else`, `elifdef` (with any
argument) or `endif` line is silently ignored: the emission flag and
the stack are unchanged, no line is emitted, no source is opened and no
error is raised; consequently literal lines around such an unbalanced
directive are emitted exactly as they would be without it. -/
theorem c9_unbalanced_noop (cfg : Config) (cd : Option String)
    (chain fs : List String) (st : CondState) (line command : String)
    (argument : Option String) (hstk : st.if_stack = [])
    (hp : parseHash line = some (command, argument))
    (hcmd : command = "else" ∨ command = "elifdef" ∨ command = "endif") :
    handle_line cfg cd chain fs st line = some ⟨st, [], none⟩ ∧
    (∀ a b, parseHash a = none → parseHash b = none →
      processLines cfg cd chain fs st [a, line, b] =
        processLines cfg cd chain fs st [a, b]) := by
  obtain ⟨de, stk⟩ := st
  have hstk2 : stk = [] := hstk
  subst hstk2
  have h1 : handle_line cfg cd chain fs ⟨de, []⟩ line = some ⟨⟨de, []⟩, [], none⟩ := by
    rcases hcmd with rfl | rfl | rfl <;> (simp only [handle_line, hp]; rfl)
  refine ⟨h1, ?_⟩
  intro a b ha hb
  simp only [processLines, handle_line_literal cfg cd chain fs ⟨de, []⟩ a ha,
    handle_line_literal cfg cd chain fs ⟨de, []⟩ b hb, h1]
  simp

/-- Witness for C9 at a concrete input: a stray `endif`. -/
theorem c9_witness :
    handle_line ⟨"", "", [], []⟩ none [] [] ⟨true, []⟩ "#endif" =
      some ⟨⟨true, []⟩, [], none⟩ :=
  (c9_unbalanced_noop ⟨"", "", [], []⟩ none [] [] ⟨true, []⟩ "#endif" "endif" none
    rfl rfl (Or.inr (Or.inr rfl))).1

/-! ## Claim C10 -/

/-- The stack length prescribed by claim C10 for processing one parsed
line: one longer after an `ifdef`/`ifndef` (which always executes),
one shorter after an `endif` acting on a non-empty stack (truncated
subtraction makes the empty-stack `endif` a no-op), and unchanged for
every other line. -/
def stackLenAfter (p : Option (String × Option String)) (n : Nat) : Nat :=
  match p with
  | some ("ifdef", some _) => n + 1
  | some ("ifndef", some _) => n + 1
  | some ("endif", _) => n - 1
  | _ => n

theorem handle_line_eq (cfg : Config) (cd : Option String) (chain fs : List String)
    (st : CondState) (line command : String) (argument : Option String)
    (hp : parseHash line = some (command, argument)) :
    handle_line cfg cd chain fs st line =
      match handle_command cfg cd chain fs st command argument with
      | .done r => some r
      | .unhandled => some ⟨st, emitLine st line, none⟩
      | .error => none := by
  simp only [handle_line, hp]

/-- Case analysis of the conditional-state effect of a handled command:
only `ifdef`/`ifndef` push (exactly the prior emission flag) and only
`endif` pops; every other handled command leaves the stack itself
unchanged. -/
theorem handle_command_cond_cases (cfg : Config) (cd : Option String)
    (chain fs : List String) (st : CondState) (command : String)
    (argument : Option String) (r : StepResult)
    (h : handle_command cfg cd chain fs st command argument = .done r) :
    (command = "ifdef" ∧ ∃ s, argument = some s ∧
      r.cond = ⟨hasSymbol cfg s, st.do_emit :: st.if_stack⟩) ∨
    (command = "ifndef" ∧ ∃ s, argument = some s ∧
      r.cond = ⟨!hasSymbol cfg s, st.do_emit :: st.if_stack⟩) ∨
    (command = "endif" ∧
      ((st.if_stack = [] ∧ r.cond = st) ∨
       (∃ f t, st.if_stack = f :: t ∧ r.cond = ⟨f, t⟩))) ∨
    (command ≠ "ifdef" ∧ command ≠ "ifndef" ∧ command ≠ "endif" ∧
      r.cond.if_stack = st.if_stack) := by
  unfold handle_command at h
  split at h
  · split at h
    · exact CmdResult.noConfusion h
    · cases h
      exact Or.inr (Or.inr (Or.inr ⟨by decide, by decide, by decide, rfl⟩))
  · split at h
    · rename_i s
      cases h
      exact Or.inl ⟨rfl, s, rfl, rfl⟩
    · exact CmdResult.noConfusion h
  · split at h
    · rename_i s
      cases h
      exact Or.inr (Or.inl ⟨rfl, s, rfl, rfl⟩)
    · exact CmdResult.noConfusion h
  · split at h
    · cases h
      exact Or.inr (Or.inr (Or.inr ⟨by decide, by decide, by decide, rfl⟩))
    · split at h
      · cases h
        exact Or.inr (Or.inr (Or.inr ⟨by decide, by decide, by decide, rfl⟩))
      · exact CmdResult.noConfusion h
  · split at h
    · exact CmdResult.noConfusion h
    · split at h
      · split at h
        · cases h
          exact Or.inr (Or.inr (Or.inr ⟨by decide, by decide, by decide, rfl⟩))
        · cases h
          exact Or.inr (Or.inr (Or.inr ⟨by decide, by decide, by decide, rfl⟩))
      · split at h
        · cases h
          exact Or.inr (Or.inr (Or.inr ⟨by decide, by decide, by decide, rfl⟩))
        · exact CmdResult.noConfusion h
  · split at h
    · exact CmdResult.noConfusion h
    · split at h
      · split at h
        · cases h
          exact Or.inr (Or.inr (Or.inr ⟨by decide, by decide, by decide, rfl⟩))
        · exact CmdResult.noConfusion h
      · split at h
        · cases h
          exact Or.inr (Or.inr (Or.inr ⟨by decide, by decide, by decide, rfl⟩))
        · exact CmdResult.noConfusion h
  · split at h
    · exact CmdResult.noConfusion h
    · cases h
      exact Or.inr (Or.inr (Or.inr ⟨by decide, by decide, by decide, rfl⟩))
  · split at h
    · exact CmdResult.noConfusion h
    · cases h
      exact Or.inr (Or.inr (Or.inr ⟨by decide, by decide, by decide, rfl⟩))
  · split at h
    · cases h
      exact Or.inr (Or.inr (Or.inr ⟨by decide, by decide, by decide, rfl⟩))
    · cases h
      exact Or.inr (Or.inr (Or.inr ⟨by decide, by decide, by decide, rfl⟩))
  · split at h
    · rename_i heq
      cases h
      exact Or.inr (Or.inr (Or.inl ⟨rfl, Or.inl ⟨heq, rfl⟩⟩))
    · rename_i f t heq
      cases h
      exact Or.inr (Or.inr (Or.inl ⟨rfl, Or.inr ⟨f, t, heq, rfl⟩⟩))
  · exact CmdResult.noConfusion h

theorem stackLenAfter_of_ne (command : String) (argument : Option String) (n : Nat)
    (h1 : command ≠ "ifdef") (h2 : command ≠ "ifndef") (h3 : command ≠ "endif") :
    stackLenAfter (some (command, argument)) n = n := by
  unfold stackLenAfter
  split
  · simp_all
  · simp_all
  · simp_all
  · rfl

/-- C10: processing any single line that does not abort the program
changes the length of the conditional stack exactly as prescribed by
`stackLenAfter` (so the length is never negative), and an executed
`ifdef`/`ifndef` pushes precisely the prior emission flag. -/
theorem c10_stack_invariant (cfg : Config) (cd : Option String)
    (chain fs : List String) (st : CondState) (line : String) (r : StepResult)
    (h : handle_line cfg cd chain fs st line = some r) :
    r.cond.if_stack.length = stackLenAfter (parseHash line) st.if_stack.length ∧
    (∀ s, (parseHash line = some ("ifdef", some s) ∨
        parseHash line = some ("ifndef", some s)) →
      r.cond.if_stack = st.do_emit :: st.if_stack) := by
  cases hp : parseHash line with
  | none =>
    rw [handle_line_literal cfg cd chain fs st line hp] at h
    obtain rfl := Option.some.inj h
    exact ⟨by simp [stackLenAfter, hp], by simp [hp]⟩
  | some ca =>
    obtain ⟨command, argument⟩ := ca
    rw [handle_line_eq cfg cd chain fs st line command argument hp] at h
    cases hc : handle_command cfg cd chain fs st command argument with
    | error =>
      rw [hc] at h
      exact Option.noConfusion h
    | unhandled =>
      rw [hc] at h
      obtain rfl := Option.some.inj h
      have hni : command ≠ "ifdef" := by
        rintro rfl
        cases argument <;> exact CmdResult.noConfusion hc
      have hnn : command ≠ "ifndef" := by
        rintro rfl
        cases argument <;> exact CmdResult.noConfusion hc
      have hne : command ≠ "endif" := by
        rintro rfl
        obtain ⟨de, stk⟩ := st
        cases stk <;> exact CmdResult.noConfusion hc
      refine ⟨?_, ?_⟩
      · simp [hp, stackLenAfter_of_ne command argument st.if_stack.length hni hnn hne]
      · intro s hs
        rcases hs with hs | hs <;> (injection hs with hs2; injection hs2 with ha hb)
        · exact absurd ha hni
        · exact absurd ha hnn
    | done r0 =>
      rw [hc] at h
      obtain rfl := Option.some.inj h
      rcases handle_command_cond_cases cfg cd chain fs st command argument r0 hc with
        ⟨rfl, s, rfl, hcond⟩ | ⟨rfl, s, rfl, hcond⟩ |
        ⟨rfl, ⟨hstk, hcond⟩ | ⟨f, t, hstk, hcond⟩⟩ |
        ⟨hni, hnn, hne, hstack⟩
      · exact ⟨by simp [hp, hcond, stackLenAfter], fun s0 hs0 => by rw [hcond]⟩
      · exact ⟨by simp [hp, hcond, stackLenAfter], fun s0 hs0 => by rw [hcond]⟩
      · refine ⟨by simp [hp, hcond, hstk, stackLenAfter], ?_⟩
        intro s0 hs0
        rcases hs0 with hs0 | hs0 <;> (injection hs0 with hs2; injection hs2 with ha hb) <;>
          exact absurd ha (by decide)
      · refine ⟨by simp [hp, hcond, hstk, stackLenAfter], ?_⟩
        intro s0 hs0
        rcases hs0 with hs0 | hs0 <;> (injection hs0 with hs2; injection hs2 with ha hb) <;>
          exact absurd ha (by decide)
      · refine ⟨?_, ?_⟩
        · simp [hp, hstack,
            stackLenAfter_of_ne command argument st.if_stack.length hni hnn hne]
        · intro s0 hs0
          rcases hs0 with hs0 | hs0 <;> (injection hs0 with hs2; injection hs2 with ha hb)
          · exact absurd ha hni
          · exact absurd ha hnn

/-- Witness for C10 at a concrete input: an executed `ifdef`. -/
theorem c10_witness :
    (⟨⟨hasSymbol ⟨"", "", [], ["x"]⟩ "x", [true, true]⟩, [], none⟩ :
        StepResult).cond.if_stack.length =
      stackLenAfter (parseHash "#ifdef x") ([true] : List Bool).length ∧
    (∀ s, (parseHash "#ifdef x" = some ("ifdef", some s) ∨
        parseHash "#ifdef x" = some ("ifndef", some s)) →
      (⟨⟨hasSymbol ⟨"", "", [], ["x"]⟩ "x", [true, true]⟩, [], none⟩ :
          StepResult).cond.if_stack =
        true :: ([true] : List Bool)) :=
  c10_stack_invariant ⟨"", "", [], ["x"]⟩ none [] [] ⟨true, [true]⟩ "#ifdef x"
    ⟨⟨hasSymbol ⟨"", "", [], ["x"]⟩ "x", [true, true]⟩, [], none⟩ rfl

/-! ## Claims C3 and C4 -/

theorem includeLoop_find (chain fs : List String) (filepath : String) :
    ∀ (cands : List String) (recursive : Bool) (c : String),
      cands.find? (fun x => !chain.contains x && fs.contains x) = some c →
      includeLoop chain fs filepath cands recursive = .opened c := by
  intro cands
  induction cands with
  | nil => intro rec c h; simp [List.find?] at h
  | cons c0 rest ih =>
    intro rec c h
    by_cases h1 : c0 ∈ chain
    · rw [List.find?_cons_of_neg _ (by simp [h1])] at h
      have hstep : includeLoop chain fs filepath (c0 :: rest) rec =
          includeLoop chain fs filepath rest true := by
        simp [includeLoop, h1]
      rw [hstep]
      exact ih true c h
    · by_cases h2 : c0 ∈ fs
      · rw [List.find?_cons_of_pos _ (by simp [h1, h2])] at h
        obtain rfl := Option.some.inj h
        simp [includeLoop, h1, h2]
      · rw [List.find?_cons_of_neg _ (by simp [h1, h2])] at h
        have hstep : includeLoop chain fs filepath (c0 :: rest) rec =
            includeLoop chain fs filepath rest rec := by
          simp [includeLoop, h1, h2]
        rw [hstep]
        exact ih rec c h

/-- C3: include resolution searches, in order, the directory of the
current source (absent for standard input) followed by the configured
include directories; the first candidate that is not already open and
that exists is the one opened.  In particular a file present both in
the current source's directory and in an include directory is read from
the current source's directory. -/
theorem c3_include_resolution (cd : Option String) (incs chain fs : List String)
    (fp : String) :
    (candidateNames cd incs fp =
      match cd with
      | some d => joinPath d fp :: incs.map (fun i => joinPath i fp)
      | none => incs.map (fun i => joinPath i fp)) ∧
    (∀ c, (candidateNames cd incs fp).find?
        (fun x => !chain.contains x && fs.contains x) = some c →
      handle_include cd incs chain fs fp = .opened c) ∧
    (∀ d, cd = some d → chain.contains (joinPath d fp) = false →
      fs.contains (joinPath d fp) = true →
      handle_include cd incs chain fs fp = .opened (joinPath d fp)) := by
  refine ⟨by cases cd <;> rfl, ?_, ?_⟩
  · intro c h
    exact includeLoop_find chain fs fp _ false c h
  · intro d hcd h1 h2
    subst hcd
    apply includeLoop_find chain fs fp _ false
    have hcn : candidateNames (some d) incs fp =
        joinPath d fp :: incs.map (fun i => joinPath i fp) := rfl
    rw [hcn, List.find?_cons_of_pos _ (by rw [h1, h2]; rfl)]

/-- Witness for C3 at a concrete input: the current source's directory
shadows an include directory holding a file of the same name. -/
theorem c3_witness :
    handle_include (some "/cur") ["/inc"] [] ["/cur/f.md", "/inc/f.md"] "f.md" =
      .opened (joinPath "/cur" "f.md") :=
  (c3_include_resolution (some "/cur") ["/inc"] [] ["/cur/f.md", "/inc/f.md"]
      "f.md").2.2 "/cur" rfl (by decide) (by decide)

theorem includeLoop_fail (chain fs : List String) (filepath : String) :
    ∀ (cands : List String) (recursive : Bool),
      (∀ c ∈ cands, fs.contains c = false ∨ chain.contains c = true) →
      includeLoop chain fs filepath cands recursive =
        .diag (if recursive || cands.any (fun x => chain.contains x)
               then "Recursive include: " ++ filepath
               else "File not found: " ++ filepath) := by
  intro cands
  induction cands with
  | nil => intro rec h; cases rec <;> simp [includeLoop]
  | cons c0 rest ih =>
    intro rec h
    have h0 := h c0 (List.mem_cons_self _ _)
    have hrest : ∀ c ∈ rest, fs.contains c = false ∨ chain.contains c = true :=
      fun c hc => h c (List.mem_cons_of_mem _ hc)
    by_cases h1 : c0 ∈ chain
    · have hstep : includeLoop chain fs filepath (c0 :: rest) rec =
          includeLoop chain fs filepath rest true := by
        simp [includeLoop, h1]
      rw [hstep, ih true hrest]
      simp [h1]
    · have h2 : c0 ∉ fs := by
        rcases h0 with h0 | h0
        · simpa using h0
        · exact absurd (by simpa using h0) h1
      have hstep : includeLoop chain fs filepath (c0 :: rest) rec =
          includeLoop chain fs filepath rest rec := by
        simp [includeLoop, h1, h2]
      rw [hstep, ih rec hrest]
      simp [h1]

/-- C4: when every candidate of an include directive is missing or
already open, no source is pushed, the program does not loop or abort,
the state is unchanged and exactly one diagnostic line is emitted in
place of the directive: the recursive-include diagnostic when some
candidate is in the chain of open sources, the file-not-found
diagnostic otherwise. -/
theorem c4_include_failure (cfg : Config) (cd : Option String)
    (chain fs : List String) (st : CondState) (line fp : String)
    (hp : parseHash line = some ("include", some fp))
    (he : st.do_emit = true)
    (h : ∀ c ∈ candidateNames cd cfg.includes fp,
      fs.contains c = false ∨ chain.contains c = true) :
    handle_line cfg cd chain fs st line =
      some ⟨st,
        [if (candidateNames cd cfg.includes fp).any (fun x => chain.contains x)
         then "Recursive include: " ++ fp else "File not found: " ++ fp],
        none⟩ := by
  rw [handle_line_eq cfg cd chain fs st line "include" (some fp) hp]
  have hinc : handle_include cd cfg.includes chain fs fp =
      .diag (if (candidateNames cd cfg.includes fp).any (fun x => chain.contains x)
             then "Recursive include: " ++ fp else "File not found: " ++ fp) := by
    have hbase := includeLoop_fail chain fs fp (candidateNames cd cfg.includes fp) false h
    simpa [handle_include] using hbase
  obtain ⟨de, stk⟩ := st
  have hde : de = true := he
  subst hde
  have hcmd : handle_command cfg cd chain fs ⟨true, stk⟩ "include" (some fp) =
      match handle_include cd cfg.includes chain fs fp with
      | .opened name => .done ⟨⟨true, stk⟩, [], some name⟩
      | .diag msg => .done ⟨⟨true, stk⟩, emitLine ⟨true, stk⟩ msg, none⟩ := rfl
  rw [hcmd, hinc]
  rfl

/-- Witness for C4 at a concrete input: the only candidate is already
open, so the recursive-include diagnostic is emitted. -/
theorem c4_witness :
    handle_line ⟨"", "", ["/inc"], []⟩ none ["/inc/a.md"] [] ⟨true, []⟩
        "#include a.md" =
      some ⟨⟨true, []⟩,
        [if (candidateNames none ["/inc"] "a.md").any
            (fun x => List.contains ["/inc/a.md"] x)
         then "Recursive include: " ++ "a.md" else "File not found: " ++ "a.md"],
        none⟩ :=
  c4_include_failure ⟨"", "", ["/inc"], []⟩ none ["/inc/a.md"] [] ⟨true, []⟩
    "#include a.md" "a.md" rfl rfl (by decide)

/-! ## Claim C5 -/

theorem string_data_append (a b : String) : (a ++ b).data = a.data ++ b.data := rfl

theorem pyStartswith_append (p a b : String) (h : pyStartswith a p = true) :
    pyStartswith (a ++ b) p = true := by
  unfold pyStartswith at h ⊢
  rw [string_data_append]
  rw [List.isPrefixOf_iff_prefix] at h ⊢
  exact h.trans (List.prefix_append _ _)

theorem string_append_assoc (a b c : String) : a ++ b ++ c = a ++ (b ++ c) := by
  apply String.ext
  simp [string_data_append]

theorem joinPath_startswith (root d fp : String) (hd : pyStartswith d root = true)
    (hne : d ≠ "") (hfp : pyStartswith fp "/" = false) :
    pyStartswith (joinPath d fp) root = true := by
  unfold joinPath
  rw [hfp]
  simp only [Bool.false_eq_true, if_false]
  rw [if_neg hne]
  by_cases he : pyEndswith d "/"
  · rw [if_pos he]
    exact pyStartswith_append root d fp hd
  · rw [if_neg he, string_append_assoc]
    exact pyStartswith_append root d ("/" ++ fp) hd

theorem imageLoop_find (cfg : Config) (fs : List String) (fp : String) :
    ∀ (cands : List String) (c : String),
      cands.find? (fun x => fs.contains x) = some c →
      pyStartswith c cfg.root = true →
      imageLoop cfg fs fp cands =
        .emit ("![](" ++ imageUrl cfg (c.drop (cfg.root.length + 1)) ++ ")\\ ") := by
  intro cands
  induction cands with
  | nil => intro c h _; simp [List.find?] at h
  | cons c0 rest ih =>
    intro c h hsw
    by_cases h1 : c0 ∈ fs
    · rw [List.find?_cons_of_pos _ (by simpa using h1)] at h
      obtain rfl := Option.some.inj h
      simp [imageLoop, h1, hsw]
    · rw [List.find?_cons_of_neg _ (by simpa using h1)] at h
      have hstep : imageLoop cfg fs fp (c0 :: rest) = imageLoop cfg fs fp rest := by
        simp [imageLoop, h1]
      rw [hstep]
      exact ih c h hsw

theorem dotsPath_ne (n : Nat) (h : 1 ≤ n) : dotsPath n ≠ "" := by
  match n, h with
  | 1, _ => decide
  | m + 2, _ =>
    intro hc
    have h2 := congrArg String.length hc
    rw [show dotsPath (m + 2) = dotsPath (m + 1) ++ "/.." from rfl,
      String.length_append] at h2
    have h3 : ("/.." : String).length = 3 := rfl
    have h4 : ("" : String).length = 0 := rfl
    rw [h3, h4] at h2
    omega

theorem imageUrl_eq (cfg : Config) (name : String) :
    imageUrl cfg name =
      if 2 ≤ (pathParts cfg.base).length then
        joinPath (dotsPath ((pathParts cfg.base).length - 1)) name
      else "/" ++ name := by
  unfold imageUrl reldirOf
  by_cases hb : cfg.base = ""
  · rw [if_pos hb, if_pos rfl, hb]
    rw [show pathParts "" = [] from rfl]
    simp
  · rw [if_neg hb]
    by_cases hn : 2 ≤ (pathParts cfg.base).length
    · rw [if_pos hn]
      have hne := dotsPath_ne ((pathParts cfg.base).length - 1) (by omega)
      rw [if_neg hne]
    · rw [if_neg hn]
      have h0 : (pathParts cfg.base).length - 1 = 0 := by omega
      rw [h0, if_pos (show dotsPath 0 = "" from rfl)]

/-- The image reference prescribed by the text of claim C5.  Modelled
from the spec (for comparison with the code): for a non-empty base the
root-relative path is prefixed by one parent-directory step per path
segment of the base beyond the first; for an empty base it is the
absolute path from the site root. -/
def specImageRef (base relpath : String) : String :=
  if base = "" then "/" ++ relpath
  else joinPath (dotsPath ((pathParts base).length - 1)) relpath

/-- C5 counterexample: with the non-empty single-segment base `"x"` the
code emits the absolute reference `/d/a.png`, not the bare
root-relative reference `d/a.png` that the claim prescribes for every
non-empty base. -/
theorem c5_counterexample :
    handle_image ⟨"/r", "x", ["/r/d"], []⟩ none ["/r/d/a.png"] "a.png" =
      .emit "![](/d/a.png)\\ " ∧
    specImageRef "x" "d/a.png" = "d/a.png" ∧
    ("![](/d/a.png)\\ " : String) ≠
      "![](" ++ specImageRef "x" "d/a.png" ++ ")\\ " :=
  ⟨by decide, by decide, by decide⟩

/-- C5 (amended): for an image directive whose argument path is
relative and whose candidate search directories all lie under (start
with) the non-trivial configured root, the first existing candidate is
a prefix-path descendant of the root — the assertion in the handler
never fails — and the emitted line is the one-line image markup whose
reference is the root-relative candidate path prefixed by one
parent-directory step per `PurePath` part of the base beyond the first
when the base has at least two parts, and the absolute path from the
site root when the base is empty or has a single part. -/
theorem c5_image_resolution (cfg : Config) (cd : Option String) (fs : List String)
    (fp c : String)
    (hfp : pyStartswith fp "/" = false)
    (hdirs : ∀ d, d ∈ searchList cd cfg.includes ->
      pyStartswith d cfg.root = true ∧ d ≠ "")
    (hfind : (candidateNames cd cfg.includes fp).find?
      (fun x => fs.contains x) = some c) :
    pyStartswith c cfg.root = true ∧
    handle_image cfg cd fs fp =
      .emit ("![](" ++
        (if 2 ≤ (pathParts cfg.base).length then
          joinPath (dotsPath ((pathParts cfg.base).length - 1))
            (c.drop (cfg.root.length + 1))
         else "/" ++ c.drop (cfg.root.length + 1)) ++ ")\\ ") ∧
    (∀ x, handle_image cfg cd fs fp ≠ .assertFail x) := by
  have hc : c ∈ candidateNames cd cfg.includes fp := List.mem_of_find?_eq_some hfind
  have hcm : c ∈ (searchList cd cfg.includes).map (fun d => joinPath d fp) := hc
  obtain ⟨d, hd, rfl⟩ := List.mem_map.mp hcm
  have hsw : pyStartswith (joinPath d fp) cfg.root = true :=
    joinPath_startswith cfg.root d fp (hdirs d hd).1 (hdirs d hd).2 hfp
  have himg : handle_image cfg cd fs fp =
      .emit ("![](" ++ imageUrl cfg ((joinPath d fp).drop (cfg.root.length + 1)) ++ ")\\ ") := by
    unfold handle_image
    exact imageLoop_find cfg fs fp (candidateNames cd cfg.includes fp) _ hfind hsw
  refine ⟨hsw, ?_, ?_⟩
  · rw [himg, imageUrl_eq]
  · intro x
    rw [himg]
    exact fun hcontra => ImageResult.noConfusion hcontra

/-- Witness for C5 (amended) at a concrete input with a two-part base. -/
theorem c5_witness :
    pyStartswith (joinPath "/r/d" "a.png") "/r" = true ∧
    handle_image ⟨"/r", "/sub", ["/r/d"], []⟩ none ["/r/d/a.png"] "a.png" =
      .emit ("![](" ++
        (if 2 ≤ (pathParts "/sub").length then
          joinPath (dotsPath ((pathParts "/sub").length - 1))
            ((joinPath "/r/d" "a.png").drop ("/r".length + 1))
         else "/" ++ (joinPath "/r/d" "a.png").drop ("/r".length + 1)) ++ ")\\ ") ∧
    (∀ x, handle_image ⟨"/r", "/sub", ["/r/d"], []⟩ none ["/r/d/a.png"] "a.png" ≠
      .assertFail x) :=
  c5_image_resolution ⟨"/r", "/sub", ["/r/d"], []⟩ none ["/r/d/a.png"] "a.png"
    (joinPath "/r/d" "a.png") (by decide) (by decide) (by decide)

/-! ## Claim C6 -/

theorem string_append_ne_empty_of_right (a b : String) (hb : b ≠ "") :
    a ++ b ≠ "" := by
  intro hcontra
  apply hb
  have h2 := congrArg String.length hcontra
  rw [String.length_append] at h2
  have h3 : ("" : String).length = 0 := rfl
  rw [h3] at h2
  have h4 : b.length = 0 := by omega
  exact String.ext (List.eq_nil_of_length_eq_zero h4)

theorem pyEndswith_slash_append (a b : String) (hb : b ≠ "") :
    pyEndswith (a ++ b) "/" = pyEndswith b "/" := by
  unfold pyEndswith
  rw [string_data_append, List.reverse_append]
  have hbd : b.data ≠ [] := by
    intro hn
    exact hb (String.ext hn)
  have hrev : b.data.reverse ≠ [] := by
    rw [ne_eq, List.reverse_eq_nil_iff]
    exact hbd
  obtain ⟨y, ys, hy⟩ := List.exists_cons_of_ne_nil hrev
  rw [hy, List.cons_append]
  simp [List.isPrefixOf]

/-- C6: the cache names computed by `get_filename4code` are a pure
function of the arguments: for a benign temp directory and filter name
the full name is literally `temp_dir/filter_name/<digest>.<extension>`
and the relative name `filter_name/<digest>.<extension>`, so two calls
with equal arguments yield equal paths; and `generate_file` invokes the
external renderer exactly when no file with that full name already
exists (its presence makes the rendering step a cache hit). -/
theorem c6_cache_key (digest : String → String) (td fn c e : String)
    (fs : List String)
    (h1 : td ≠ "") (h2 : pyEndswith td "/" = false)
    (h3 : pyStartswith fn "/" = false) (h4 : fn ≠ "")
    (h5 : pyEndswith fn "/" = false)
    (h6 : pyStartswith (digest c ++ "." ++ e) "/" = false) :
    get_filename4code digest td fn c e =
      (td ++ "/" ++ fn ++ "/" ++ (digest c ++ "." ++ e),
       fn ++ "/" ++ (digest c ++ "." ++ e)) ∧
    (∀ c2, c2 = c → get_filename4code digest td fn c2 e =
      get_filename4code digest td fn c e) ∧
    ((generate_file digest td fs fn c e).2 = false ↔
      fs.contains (get_filename4code digest td fn c e).1 = true) := by
  have hfd : joinPath td fn = td ++ "/" ++ fn := by
    unfold joinPath
    rw [h3]
    simp only [Bool.false_eq_true, if_false]
    rw [if_neg h1, if_neg (by simp [h2])]
  have hfe : pyEndswith (td ++ "/" ++ fn) "/" = false := by
    rw [pyEndswith_slash_append (td ++ "/") fn h4]
    exact h5
  have hful : joinPath (td ++ "/" ++ fn) (digest c ++ "." ++ e) =
      td ++ "/" ++ fn ++ "/" ++ (digest c ++ "." ++ e) := by
    unfold joinPath
    rw [h6]
    simp only [Bool.false_eq_true, if_false]
    rw [if_neg (string_append_ne_empty_of_right (td ++ "/") fn h4),
      if_neg (by simp [hfe])]
  have hg : get_filename4code digest td fn c e =
      (joinPath (joinPath td fn) (digest c ++ "." ++ e),
       fn ++ "/" ++ (digest c ++ "." ++ e)) := rfl
  refine ⟨?_, ?_, ?_⟩
  · rw [hg, hfd, hful]
  · intro c2 hc2
    rw [hc2]
  · have hgen : (generate_file digest td fs fn c e).2 =
        !fs.contains (get_filename4code digest td fn c e).1 := rfl
    rw [hgen]
    simp

/-- Witness for C6 at a concrete input: the cache file exists, so the
renderer invocation is skipped. -/
theorem c6_witness :
    get_filename4code (fun _ => "d1g") "/tmp" "dot" "code" "svg" =
      ("/tmp/dot/d1g.svg", "dot/d1g.svg") ∧
    ((generate_file (fun _ => "d1g") "/tmp" ["/tmp/dot/d1g.svg"]
        "dot" "code" "svg").2 = false ↔
      List.contains ["/tmp/dot/d1g.svg"]
        (get_filename4code (fun _ => "d1g") "/tmp" "dot" "code" "svg").1 = true) :=
  ⟨(c6_cache_key (fun _ => "d1g") "/tmp" "dot" "code" "svg" ["/tmp/dot/d1g.svg"]
      (by decide) (by decide) (by decide) (by decide) (by decide) (by decide)).1,
   (c6_cache_key (fun _ => "d1g") "/tmp" "dot" "code" "svg" ["/tmp/dot/d1g.svg"]
      (by decide) (by decide) (by decide) (by decide) (by decide) (by decide)).2.2⟩

/-! ## Claim C7 -/

/-- C7 counterexample: with metadata not defining `course`, the filter
does not return the pass-through signal (`none`): `replace_metavar`
finds the variable occurrence and, since its lookup fails, rebuilds the
original text, so `process_str` returns a replacement `Str` node of
identical content rather than the absence-of-change signal. -/
theorem c7_counterexample :
    metavar_process_str [] "Title: %\x7bcourse\x7d" =
      some (Inline.str "Title: %\x7bcourse\x7d") ∧
    metavar_process_str [] "Title: %\x7bcourse\x7d" ≠ none :=
  ⟨by decide, by decide⟩

/-- C7 (amended): with metadata mapping `course` to the string
`"CS101"`, the filter applied to the plain-text node
`Title: %{course}` returns the text `Title: CS101`; with metadata not
defining `course`, it returns a replacement node whose content is the
original text unchanged — the occurrence `%{course}` is left
unexpanded — while the pass-through signal `none` is returned only for
text containing no `%{...}` occurrence at all. -/
theorem c7_metavar :
    metavar_process_str [("course", MetaValue.metaString "CS101")]
        "Title: %\x7bcourse\x7d" = some (Inline.str "Title: CS101") ∧
    metavar_process_str [] "Title: %\x7bcourse\x7d" =
      some (Inline.str "Title: %\x7bcourse\x7d") ∧
    metavar_process_str [] "Title" = none :=
  ⟨by decide, by decide, by decide⟩

/-! ## Claim C8 -/

/-- No acute-accent character (and hence no part of the `´´` marker)
occurs in the text. -/
def noAcute (l : List Char) : Prop := ∀ ch ∈ l, ch ≠ '´'

instance (l : List Char) : Decidable (noAcute l) :=
  inferInstanceAs (Decidable (∀ ch ∈ l, ch ≠ '´'))

theorem quote_replacement_eq (fmt : String)
    (hfmt : PANDOC_HTML_FORMATS.contains fmt = true ∨ fmt = "latex") :
    quote_replacement true fmt = "„" ∧ quote_replacement false fmt = "“" := by
  rcases hfmt with h | rfl
  · have hm : fmt ∈ PANDOC_HTML_FORMATS := by simpa using h
    constructor <;> simp [quote_replacement, hm]
  · constructor <;> rfl

theorem replaceQuotesGo_cons_ne (fmt : String) (x : Char) (hx : x ≠ '´')
    (m : List Char) (b : Bool) :
    replaceQuotesGo fmt (x :: m) b =
      (x :: (replaceQuotesGo fmt m b).1, (replaceQuotesGo fmt m b).2) := by
  cases m with
  | nil => simp [replaceQuotesGo]
  | cons c2 rest =>
    have hcond : ¬(x = '´' ∧ c2 = '´') := fun hcontra => hx hcontra.1
    simp [replaceQuotesGo, hcond]

theorem replaceQuotesGo_append (fmt : String) (a : List Char) (ha : noAcute a)
    (l : List Char) (b : Bool) :
    replaceQuotesGo fmt (a ++ l) b =
      (a ++ (replaceQuotesGo fmt l b).1, (replaceQuotesGo fmt l b).2) := by
  induction a with
  | nil => simp
  | cons x a ih =>
    have hx : x ≠ '´' := ha x (List.mem_cons_self _ _)
    have ha2 : noAcute a := fun ch hch => ha ch (List.mem_cons_of_mem _ hch)
    rw [List.cons_append, replaceQuotesGo_cons_ne fmt x hx (a ++ l) b, ih ha2]
    simp

theorem replaceQuotesGo_marker (fmt : String) (rest : List Char) (b : Bool) :
    replaceQuotesGo fmt ('´' :: '´' :: rest) b =
      ((quote_replacement b fmt).data ++ (replaceQuotesGo fmt rest (!b)).1,
       (replaceQuotesGo fmt rest (!b)).2) := by
  simp [replaceQuotesGo]

theorem replaceQuotesGo_noAcute (fmt : String) (a : List Char) (ha : noAcute a)
    (b : Bool) : replaceQuotesGo fmt a b = (a, b) := by
  have hbase := replaceQuotesGo_append fmt a ha [] b
  simpa [replaceQuotesGo] using hbase

theorem hasMarker_cons_ne (x : Char) (hx : x ≠ '´') (m : List Char) :
    hasMarker (x :: m) = hasMarker m := by
  cases m with
  | nil => simp [hasMarker]
  | cons c2 rest =>
    have hcond : ¬(x = '´' ∧ c2 = '´') := fun hcontra => hx hcontra.1
    simp [hasMarker, hcond]

theorem hasMarker_append_marker (a : List Char) (ha : noAcute a) (l : List Char) :
    hasMarker (a ++ '´' :: '´' :: l) = true := by
  induction a with
  | nil => simp [hasMarker]
  | cons x a ih =>
    have hx : x ≠ '´' := ha x (List.mem_cons_self _ _)
    have ha2 : noAcute a := fun ch hch => ha ch (List.mem_cons_of_mem _ hch)
    rw [List.cons_append, hasMarker_cons_ne x hx]
    exact ih ha2

theorem countMarkers_parity (fmt : String) :
    ∀ (n : Nat) (l : List Char), l.length ≤ n → ∀ (b : Bool),
      (replaceQuotesGo fmt l b).2 = (if countMarkers l % 2 = 0 then b else !b) := by
  intro n
  induction n with
  | zero =>
    intro l hl b
    have hnil : l = [] := List.eq_nil_of_length_eq_zero (by omega)
    subst hnil
    simp [replaceQuotesGo, countMarkers]
  | succ n ih =>
    intro l hl b
    match l with
    | [] => simp [replaceQuotesGo, countMarkers]
    | [c] => simp [replaceQuotesGo, countMarkers]
    | c1 :: c2 :: rest =>
      by_cases hcond : c1 = '´' ∧ c2 = '´'
      · obtain ⟨rfl, rfl⟩ := hcond
        rw [replaceQuotesGo_marker]
        have hcm : countMarkers ('´' :: '´' :: rest) = countMarkers rest + 1 := by
          simp [countMarkers]
        rw [hcm, ih rest (by simp at hl; omega) (!b)]
        by_cases hm : countMarkers rest % 2 = 0
        · rw [if_pos hm, if_neg (by omega)]
        · rw [if_neg hm, if_pos (by omega)]
          simp
      · have hstep : replaceQuotesGo fmt (c1 :: c2 :: rest) b =
            (c1 :: (replaceQuotesGo fmt (c2 :: rest) b).1,
             (replaceQuotesGo fmt (c2 :: rest) b).2) := by
          simp [replaceQuotesGo, hcond]
        have hcm : countMarkers (c1 :: c2 :: rest) = countMarkers (c2 :: rest) := by
          simp [countMarkers, hcond]
        rw [hstep, hcm]
        exact ih (c2 :: rest) (by simp at hl ⊢; omega) b

theorem quotes_flag_parity (fmt : String) (l : List Char) (b : Bool) :
    (replaceQuotesGo fmt l b).2 = (if countMarkers l % 2 = 0 then b else !b) :=
  countMarkers_parity fmt l.length l (le_refl _) b

theorem quotes_fold_parity (fmt : String) :
    ∀ (ls : List (List Char)) (b : Bool),
      (ls.foldl (fun st l => (replaceQuotesGo fmt l st).2) b) =
        (if (ls.map countMarkers).sum % 2 = 0 then b else !b) := by
  intro ls
  induction ls with
  | nil => intro b; simp
  | cons l ls ih =>
    intro b
    rw [List.foldl_cons, ih ((replaceQuotesGo fmt l b).2), quotes_flag_parity fmt l b,
      List.map_cons, List.sum_cons]
    by_cases h1 : countMarkers l % 2 = 0 <;>
      by_cases h2 : (ls.map countMarkers).sum % 2 = 0
    · rw [if_pos h1, if_pos h2, if_pos (by omega)]
    · rw [if_pos h1, if_neg h2, if_neg (by omega)]
    · rw [if_neg h1, if_pos h2, if_neg (by omega)]
    · rw [if_neg h1, if_neg h2, if_pos (by omega)]
      simp

/-- C8: for an HTML-family or latex target and a toggle flag in the
opening state, a text with exactly two `´´` markers is rewritten with
the opening quote (U+201E) at the first marker and the closing quote
(U+201C) at the second, and the flag returns to the opening state; the
same holds when the two markers sit in two different nodes processed in
sequence (the flag persists across nodes); and after processing any
sequence of nodes starting from the opening state the flag is in the
opening state exactly when the total number of markers is even. -/
theorem c8_german_quotes (fmt : String) (a b c d e f g : List Char)
    (hfmt : PANDOC_HTML_FORMATS.contains fmt = true ∨ fmt = "latex")
    (ha : noAcute a) (hb : noAcute b) (hc : noAcute c) (hd : noAcute d)
    (he : noAcute e) (hf : noAcute f) (hg : noAcute g) :
    replace_quotes fmt (a ++ '´' :: '´' :: (b ++ '´' :: '´' :: c)).asString true =
      (some (a ++ '„' :: (b ++ '“' :: c)).asString, true) ∧
    (replace_quotes fmt (d ++ '´' :: '´' :: e).asString true =
        (some (d ++ '„' :: e).asString, false) ∧
      replace_quotes fmt (f ++ '´' :: '´' :: g).asString false =
        (some (f ++ '“' :: g).asString, true)) ∧
    (∀ (ls : List (List Char)),
      (ls.foldl (fun st l => (replaceQuotesGo fmt l st).2) true) = true ↔
        (ls.map countMarkers).sum % 2 = 0) := by
  obtain ⟨hq1, hq2⟩ := quote_replacement_eq fmt hfmt
  refine ⟨?_, ⟨?_, ?_⟩, ?_⟩
  · unfold replace_quotes
    rw [show ((a ++ '´' :: '´' :: (b ++ '´' :: '´' :: c)).asString).data =
        a ++ '´' :: '´' :: (b ++ '´' :: '´' :: c) from rfl]
    rw [hasMarker_append_marker a ha]
    simp only [if_true]
    rw [replaceQuotesGo_append fmt a ha _ true, replaceQuotesGo_marker]
    simp only [Bool.not_true]
    rw [replaceQuotesGo_append fmt b hb _ false, replaceQuotesGo_marker]
    simp only [Bool.not_false]
    rw [replaceQuotesGo_noAcute fmt c hc true, hq1, hq2]
    simp [List.asString]
  · unfold replace_quotes
    rw [show ((d ++ '´' :: '´' :: e).asString).data = d ++ '´' :: '´' :: e from rfl]
    rw [hasMarker_append_marker d hd]
    simp only [if_true]
    rw [replaceQuotesGo_append fmt d hd _ true, replaceQuotesGo_marker]
    simp only [Bool.not_true]
    rw [replaceQuotesGo_noAcute fmt e he false, hq1]
    simp [List.asString]
  · unfold replace_quotes
    rw [show ((f ++ '´' :: '´' :: g).asString).data = f ++ '´' :: '´' :: g from rfl]
    rw [hasMarker_append_marker f hf]
    simp only [if_true]
    rw [replaceQuotesGo_append fmt f hf _ false, replaceQuotesGo_marker]
    simp only [Bool.not_false]
    rw [replaceQuotesGo_noAcute fmt g hg true, hq2]
    simp [List.asString]
  · intro ls
    rw [quotes_fold_parity fmt ls true]
    by_cases hsum : (ls.map countMarkers).sum % 2 = 0
    · rw [if_pos hsum]
      simp [hsum]
    · rw [if_neg hsum]
      simp [hsum]

/-- Witness for C8 at a concrete input: two markers in one node for the
`html` target. -/
theorem c8_witness :
    replace_quotes "html"
        (['x'] ++ '´' :: '´' :: (['y'] ++ '´' :: '´' :: ['z'])).asString true =
      (some (['x'] ++ '„' :: (['y'] ++ '“' :: ['z'])).asString, true) :=
  (c8_german_quotes "html" ['x'] ['y'] ['z'] ['x'] ['y'] ['x'] ['y']
    (Or.inl (by decide)) (by decide) (by decide) (by decide) (by decide)
    (by decide) (by decide) (by decide)).1

end Slider
